import Mathlib

/-!
Verification of the `rust-to-mermaid` extraction and rendering pipeline.

This file is a shallow embedding, in Lean 4, of the core of
`src/build_diagram.rs`: the tree-sitter syntax-tree walk that extracts a
structural model (classes, relationship edges, free functions) from Rust
source trees, and the Mermaid rendering step.

The syntax tree delivered by tree-sitter is modelled as a rose tree of
nodes carrying a kind tag, the node's source text, and an ordered list of
children, each optionally labelled with a tree-sitter field name.
`prev_sibling` navigation is modelled by handing each scanning function
the list of preceding siblings, nearest first, exactly the chain the Rust
code walks with `Node::prev_sibling`.

Rust's `HashMap` is modelled as an association list with insert-if-absent
(`entry().or_insert_with`) semantics; its arbitrary iteration order is
made explicit where it is observable (rendering), by parameterising the
renderer over an iteration order of the class map.  `BTreeSet<String>` is
modelled as a sorted deduplicated list, and `BTreeSet<Relationship>` as a
deduplicated list (its iteration order is unobservable downstream, since
edges are re-sorted as strings before rendering).  Panics (`.unwrap()` on
a missing field) are modelled by `Option`: `none` is an aborted run.
-/

set_option autoImplicit false

namespace RustToMermaid

/-- A tree-sitter syntax node: kind tag, UTF-8 source text of the node,
and ordered children, each with an optional tree-sitter field label. -/
inductive TSNode where
  | node (kind : String) (text : String) (childPairs : List (Option String × TSNode)) : TSNode

/-- The node's kind tag (`Node::kind`). -/
def TSNode.kind : TSNode → String
  | .node k _ _ => k

/-- The node's source text (`Node::utf8_text`, which always succeeds on
text obtained from the parsed file). -/
def TSNode.text : TSNode → String
  | .node _ t _ => t

/-- The labelled children of the node. -/
def TSNode.childPairs : TSNode → List (Option String × TSNode)
  | .node _ _ cs => cs

/-- All children in order (`Node::children`). -/
def TSNode.children (n : TSNode) : List TSNode :=
  n.childPairs.map Prod.snd

/-- Model of `Node::child_by_field_name`: the first child carrying the given field
label. -/
def TSNode.childByFieldName (n : TSNode) (f : String) : Option TSNode :=
  (n.childPairs.find? (fun p => p.1 == some f)).map Prod.snd

/-- Does `pat` occur as a contiguous sublist of `s`? -/
def charsContain (s pat : List Char) : Bool :=
  if pat.isPrefixOf s then true
  else
    match s with
    | [] => false
    | _ :: rest => charsContain rest pat

/-- Model of `str::contains` on strings (substring containment). -/
def containsSubstr (s pat : String) : Bool :=
  charsContain s.data pat.data

/-- Model of `str::trim`: strip leading and trailing whitespace (ASCII whitespace
suffices for the texts the source inspects). -/
def strTrim (s : String) : String :=
  ⟨(((s.data.dropWhile Char.isWhitespace).reverse).dropWhile Char.isWhitespace).reverse⟩

/-- Drop the first `n` characters (the `///` marker strip). -/
def strDrop (s : String) (n : Nat) : String := ⟨s.data.drop n⟩

/-- Model of `str::starts_with`. -/
def strStartsWith (s pre : String) : Bool := pre.data.isPrefixOf s.data

/-- Model of `str::ends_with`. -/
def strEndsWith (s suf : String) : Bool :=
  suf.data.reverse.isPrefixOf s.data.reverse

/-- Lexicographic (codepoint, equivalently UTF-8 byte) order on strings,
the `Ord` of `BTreeSet<String>`/`BTreeMap<String, _>`. -/
def charListLt : List Char → List Char → Bool
  | [], [] => false
  | [], _ :: _ => true
  | _ :: _, [] => false
  | a :: as, b :: bs => if a < b then true else if b < a then false else charListLt as bs

/-- String order used by the render model for `BTreeSet`/`BTreeMap`. -/
def strLt (a b : String) : Bool := charListLt a.data b.data

/-- Model of `src/build_diagram.rs::leading_doc_comment`, scanning loop.  The Rust
code starts at `item.prev_sibling()` and walks backwards: a `line_comment`
whose text starts with `///` overwrites `last_doc_line` with the stripped,
trimmed text; a `line_comment` without the `///` marker breaks the scan;
any other node breaks unless its text trims to empty.  The argument list
is the chain of preceding siblings, nearest first. -/
def leadingDocCommentLoop : List TSNode → Option String → Option String
  | [], acc => acc
  | c :: rest, acc =>
    if c.kind == "line_comment" then
      if strStartsWith c.text "///" then
        leadingDocCommentLoop rest (some (strTrim (strDrop c.text 3)))
      else
        acc
    else
      if strTrim c.text == "" then
        leadingDocCommentLoop rest acc
      else
        acc

/-- Model of `src/build_diagram.rs::leading_doc_comment` on the preceding-sibling
chain (nearest sibling first); no preceding sibling yields `none`. -/
def leading_doc_comment (prevs : List TSNode) : Option String :=
  leadingDocCommentLoop prevs none

/-- The test-marker check of `has_test_attribute`:
`text.contains("#[test]") || text.contains("test]")`. -/
def attrHasTestMarker (n : TSNode) : Bool :=
  containsSubstr n.text "#[test]" || containsSubstr n.text "test]"

/-- Model of `src/build_diagram.rs::has_test_attribute` on the preceding-sibling
chain (nearest first).  Attribute nodes containing a test marker yield
`true`; attribute nodes without a marker, comments, and whitespace-only
nodes are skipped; any other node with non-empty trimmed text stops the
scan with `false`. -/
def has_test_attribute : List TSNode → Bool
  | [] => false
  | c :: rest =>
    if c.kind == "attribute_item" || c.kind == "attribute" then
      if attrHasTestMarker c then true else has_test_attribute rest
    else if c.kind == "line_comment" || c.kind == "block_comment" then
      has_test_attribute rest
    else if strTrim c.text == "" then
      has_test_attribute rest
    else
      false

mutual

/-- Model of `src/build_diagram.rs::extract_type_identifiers`: collect the text of
every `type_identifier` node strictly below the given node, in document
order (each child's own token first, then its descendants). -/
def extract_type_identifiers : TSNode → List String
  | .node _ _ cs => extractTypeIdentifiersList cs

/-- Child-list worker for `extract_type_identifiers`. -/
def extractTypeIdentifiersList : List (Option String × TSNode) → List String
  | [] => []
  | (_, c) :: rest =>
    (if c.kind == "type_identifier" then [c.text] else [])
      ++ extract_type_identifiers c ++ extractTypeIdentifiersList rest

end

/-- Model of `Relationship` from `src/build_diagram.rs` (derived `Ord` is only used
for `BTreeSet` dedup there; order is unobservable downstream). -/
structure Relationship where
  source : String
  target : String
  edge_type : String
  label : Option String
deriving DecidableEq, Repr

/-- Model of `Class` from `src/build_diagram.rs`.  `relationships` models the
`BTreeSet<Relationship>` as a deduplicated list and `trait_impls` the
`BTreeSet<String>` (never inserted into anywhere in the source, hence
always empty in practice). -/
structure Class where
  name : String
  file : String
  stereotype : Option String
  doc : Option String
  fields : List String
  methods : List String
  relationships : List Relationship
  trait_impls : List String
deriving DecidableEq, Repr

/-- Model of `Class::default()` (all fields empty / `None`). -/
def Class.default : Class :=
  ⟨"", "", none, none, [], [], [], []⟩

/-- Model of `FunctionInfo` from `src/build_diagram.rs`. -/
structure FunctionInfo where
  name : String
  doc : Option String
deriving DecidableEq, Repr

/-- Model of `BTreeSet<Relationship>::insert`: set semantics (dedup); insertion
position is unobservable, so new elements go to the back. -/
def insertRel (r : Relationship) (l : List Relationship) : List Relationship :=
  if r ∈ l then l else l ++ [r]

/-- Model of `HashMap<String, Class>` lookup. -/
def lookupA : List (String × Class) → String → Option Class
  | [], _ => none
  | (k, c) :: rest, key => if k == key then some c else lookupA rest key

/-- Model of `HashMap<String, Class>` binding update: replace the binding for `k`
if present, otherwise add it. -/
def updateA (m : List (String × Class)) (k : String) (c : Class) :
    List (String × Class) :=
  match m with
  | [] => [(k, c)]
  | (k0, c0) :: rest =>
    if k0 == k then (k, c) :: rest else (k0, c0) :: updateA rest k c

/-- Model of `file_functions.entry(file_module).or_default().push(info)`. -/
def pushFn (m : List (String × List FunctionInfo)) (k : String)
    (info : FunctionInfo) : List (String × List FunctionInfo) :=
  match m with
  | [] => [(k, [info])]
  | (k0, fs) :: rest =>
    if k0 == k then (k0, fs ++ [info]) :: rest else (k0, fs) :: pushFn rest k info

/-- The three mutable accumulators threaded through `extract_items`. -/
structure ExtractState where
  classes : List (String × Class)
  file_functions_main : List (String × List FunctionInfo)
  file_functions_tests : List (String × List FunctionInfo)
deriving DecidableEq, Repr

/-- The empty initial state of `generate_diagrams_with_config`. -/
def ExtractState.empty : ExtractState := ⟨[], [], []⟩

/-- The edge kind chosen from the field's type node: `o--` (aggregation)
when the node itself is a `reference_type`, `*--` (composition)
otherwise. -/
def edgeKind (ftype : TSNode) : String :=
  if ftype.kind == "reference_type" then "o--" else "*--"

/-- One turn of the `for ty in extract_type_identifiers(ftype)` loop in
the struct case of `extract_items`: a type identifier that is in the
local type universe inserts a relationship edge, labelled
`"<type> <field>"` when the field name is known. -/
def edgeStep (local_types : List String) (ftype : TSNode)
    (field_name : Option String) (c : Class) (ty : String) : Class :=
  if ty ∈ local_types then
    let label := field_name.map (fun fname => ty ++ " " ++ fname)
    { c with relationships :=
        insertRel ⟨c.name, ty, edgeKind ftype, label⟩ c.relationships }
  else c

/-- Same loop turn in the enum-variant case: the label encodes the
variant, `"<type> <variant>::<field>"`, or `"<type> <variant>"` when the
payload field name is unknown. -/
def variantEdgeStep (local_types : List String) (ftype : TSNode)
    (variant_name field_name : Option String) (c : Class) (ty : String) : Class :=
  if ty ∈ local_types then
    let label :=
      match variant_name, field_name with
      | some vn, some fname => some (ty ++ " " ++ vn ++ "::" ++ fname)
      | some vn, none => some (ty ++ " " ++ vn)
      | _, _ => none
    { c with relationships :=
        insertRel ⟨c.name, ty, edgeKind ftype, label⟩ c.relationships }
  else c

/-- One `field_declaration` child of a struct body (`extract_items`,
struct case): push the field name onto `fields` when present, then fold
the edge insertion over every extracted type identifier of the declared
type. -/
def processField (local_types : List String) (cls : Class) (field : TSNode) :
    Class :=
  if field.kind == "field_declaration" then
    let field_name := (field.childByFieldName "name").map TSNode.text
    let cls :=
      match field_name with
      | some fname => { cls with fields := cls.fields ++ [fname] }
      | none => cls
    match field.childByFieldName "type" with
    | none => cls
    | some ftype =>
      (extract_type_identifiers ftype).foldl
        (edgeStep local_types ftype field_name) cls
  else cls

/-- One `field_declaration` inside an enum variant body (`extract_items`,
enum case).  Variant payload field names are *not* pushed onto
`fields`. -/
def processVariantField (local_types : List String) (variant_name : Option String)
    (cls : Class) (field : TSNode) : Class :=
  if field.kind == "field_declaration" then
    let field_name := (field.childByFieldName "name").map TSNode.text
    match field.childByFieldName "type" with
    | none => cls
    | some ftype =>
      (extract_type_identifiers ftype).foldl
        (variantEdgeStep local_types ftype variant_name field_name) cls
  else cls

/-- One `enum_variant` child of an enum body: push the variant name onto
`fields` when present, then process its payload fields. -/
def processVariant (local_types : List String) (cls : Class) (variant : TSNode) :
    Class :=
  if variant.kind == "enum_variant" then
    let variant_name := (variant.childByFieldName "name").map TSNode.text
    let cls :=
      match variant_name with
      | some vn => { cls with fields := cls.fields ++ [vn] }
      | none => cls
    match variant.childByFieldName "body" with
    | none => cls
    | some vbody => vbody.children.foldl (processVariantField local_types variant_name) cls
  else cls

/-- Model of `classes.entry(name).or_insert_with(...)` for a struct or enum
declaration: the existing class if the name is already bound, else a
fresh default-extended class recording stereotype, origin file and doc
summary at creation. -/
def entryClass (st : ExtractState) (file_module : String) (stereo : String)
    (doc : Option String) (name : String) : Class :=
  match lookupA st.classes name with
  | some c => c
  | none => { Class.default with
                name := name, file := file_module,
                stereotype := some stereo, doc := doc }

/-- The struct-body loop of `extract_items`: fold every child of the
`body` field (when present) through `processField`. -/
def structBodyFold (local_types : List String) (child : TSNode) (cls : Class) :
    Class :=
  match child.childByFieldName "body" with
  | none => cls
  | some body => body.children.foldl (processField local_types) cls

/-- The enum-body loop of `extract_items`: fold every child of the
`body` field (when present) through `processVariant`. -/
def enumBodyFold (local_types : List String) (child : TSNode) (cls : Class) :
    Class :=
  match child.childByFieldName "body" with
  | none => cls
  | some body => body.children.foldl (processVariant local_types) cls

/-- The `match child.kind()` body of `extract_items` for a single child,
given the chain of its preceding siblings (nearest first).  `none` models
the panic of the `.unwrap()` on a `struct_item`/`enum_item` missing its
`name` field; a `function_item` missing its name is silently skipped
(`if let Some(name_node) = ...`).  For struct/enum, the class is fetched
or created first-wins (`entry().or_insert_with`), then the declaration's
own body is folded into it. -/
def processChild (child : TSNode) (prevs : List TSNode) (file_module : String)
    (local_types : List String) (st : ExtractState) : Option ExtractState :=
  if child.kind == "struct_item" then
    match child.childByFieldName "name" with
    | none => none
    | some nameNode =>
      let cls := structBodyFold local_types child
        (entryClass st file_module "struct" (leading_doc_comment prevs) nameNode.text)
      some { st with classes := updateA st.classes nameNode.text cls }
  else if child.kind == "enum_item" then
    match child.childByFieldName "name" with
    | none => none
    | some nameNode =>
      let cls := enumBodyFold local_types child
        (entryClass st file_module "enum" (leading_doc_comment prevs) nameNode.text)
      some { st with classes := updateA st.classes nameNode.text cls }
  else if child.kind == "function_item" then
    match child.childByFieldName "name" with
    | none => some st
    | some nameNode =>
      let info : FunctionInfo := ⟨nameNode.text, leading_doc_comment prevs⟩
      if has_test_attribute prevs then
        some { st with file_functions_tests :=
                 pushFn st.file_functions_tests file_module info }
      else
        some { st with file_functions_main :=
                 pushFn st.file_functions_main file_module info }
  else
    some st

mutual

/-- Model of `src/build_diagram.rs::extract_items` (the unused `file_name`
parameter of the Rust signature is omitted): iterate over the node's
children, process each declaration child, then recurse into the child;
the preceding-sibling chain grows as the iteration advances. -/
def extract_items (n : TSNode) (file_module : String) (local_types : List String)
    (st : ExtractState) : Option ExtractState :=
  match n with
  | .node _ _ cs => extractChildren cs [] file_module local_types st

/-- Child-list worker of `extract_items`; `prevs` is the reversed list of
already-visited siblings (nearest first). -/
def extractChildren : List (Option String × TSNode) → List TSNode → String →
    List String → ExtractState → Option ExtractState
  | [], _, _, _, st => some st
  | (_, c) :: rest, prevs, file_module, local_types, st =>
    match processChild c prevs file_module local_types st with
    | none => none
    | some st1 =>
      match extract_items c file_module local_types st1 with
      | none => none
      | some st2 => extractChildren rest (c :: prevs) file_module local_types st2

end

/-- Insert into the local-type universe (`HashSet<String>::insert`): set
semantics, membership only. -/
def insertStrSet (s : String) (l : List String) : List String :=
  if s ∈ l then l else l ++ [s]

mutual

/-- Model of `src/build_diagram.rs::collect_type_names`: record the `name` field of
every `struct_item`/`enum_item`/`trait_item` node anywhere in the tree. -/
def collect_type_names (n : TSNode) (out : List String) : List String :=
  match n with
  | .node _ _ cs => collectTypeNamesList cs out

/-- Child-list worker of `collect_type_names`. -/
def collectTypeNamesList : List (Option String × TSNode) → List String → List String
  | [], out => out
  | (_, c) :: rest, out =>
    let out :=
      if c.kind == "struct_item" || c.kind == "enum_item" || c.kind == "trait_item" then
        match c.childByFieldName "name" with
        | some nm => insertStrSet nm.text out
        | none => out
      else out
    collectTypeNamesList rest (collect_type_names c out)

end

/-- One input file of the second pass: its module identity (the
extension-stripped path relative to the source root, as computed by
`generate_diagrams_with_config`) and its parsed tree. -/
structure SourceFile where
  file_module : String
  tree : TSNode

/-- FIRST PASS of `generate_diagrams_with_config`: the Type Universe. -/
def typeUniverse (files : List SourceFile) : List String :=
  files.foldl (fun acc f => collect_type_names f.tree acc) []

/-- SECOND PASS: run `extract_items` over every file in order. -/
def extractFiles (local_types : List String) :
    List SourceFile → ExtractState → Option ExtractState
  | [], st => some st
  | f :: rest, st =>
    match extract_items f.tree f.file_module local_types st with
    | none => none
    | some st1 => extractFiles local_types rest st1

/-- The extraction half of `generate_diagrams_with_config`: collect the
Type Universe, then extract every file starting from the empty state. -/
def extractProject (files : List SourceFile) : Option ExtractState :=
  extractFiles (typeUniverse files) files ExtractState.empty

/-- Model of `src/build_diagram.rs::is_test_file`. -/
def is_test_file (file_module : String) : Bool :=
  strStartsWith file_module "tests" || containsSubstr file_module "/tests/"
    || strEndsWith file_module "_test" || strEndsWith file_module "_tests"

/-- Model of `BTreeSet<String>` insertion into a sorted deduplicated list, the
model of both `rendered_edges_*` and the key order of the `BTreeMap`s. -/
def insertSortedStr (s : String) : List String → List String
  | [] => [s]
  | x :: xs =>
    if strLt s x then s :: x :: xs
    else if s == x then x :: xs
    else x :: insertSortedStr s xs

/-- Model of `Class::render` from `src/build_diagram.rs`: the class block text and
the optional `note for` line. -/
def Class.render (c : Class) : String × Option String :=
  let s := "        class `" ++ c.name ++ "` \x7b\n"
  let s :=
    match c.stereotype with
    | some st => s ++ "            <<" ++ st ++ ">>\n"
    | none => s
  let s := s ++ "            <<" ++ c.file ++ ">>\n"
  let s := c.fields.foldl (fun a f => a ++ "            " ++ f ++ "\n") s
  let s := c.methods.foldl (fun a m => a ++ "            " ++ m ++ "()\n") s
  let s := s ++ "        \x7d\n"
  (s, c.doc.map (fun d => "note for `" ++ c.name ++ "` \"" ++ d ++ "\"\n"))

/-- One rendered edge line of `generate_diagrams_with_config`
(lines 200-217). -/
def renderEdge (r : Relationship) : String :=
  match r.label with
  | some l => "    " ++ r.source ++ " " ++ r.edge_type ++ " " ++ r.target ++ " : " ++ l ++ "\n"
  | none => "    " ++ r.source ++ " " ++ r.edge_type ++ " " ++ r.target ++ "\n"

/-- The YAML front-matter header of both documents. -/
def renderHeader (title layout theme elkNodePlacement : String) : String :=
  "---\nconfig:\n  title: " ++ title ++ "\n  layout: " ++ layout
    ++ "\n  theme: " ++ theme
    ++ "\n  elk:\n    mergeEdges: true\n    nodePlacementStrategy: "
    ++ elkNodePlacement ++ "\n---\n"

/-- One `namespace` block of class blocks (lines 237-248), together with
the `note` lines it contributes, in order. -/
def renderNamespace (file_module : String) (group : List Class) :
    String × List String :=
  let start := "    namespace `" ++ file_module ++ ".rs` \x7b\n"
  let bodyNotes :=
    group.foldl
      (fun (acc : String × List String) c =>
        let rendered := c.render
        ( acc.1 ++ rendered.1,
          match rendered.2 with
          | some note => acc.2 ++ [note]
          | none => acc.2 ))
      ("", [])
  (start ++ bodyNotes.1 ++ "    \x7d\n", bodyNotes.2)

/-- One per-file free-function `namespace` block (lines 250-263). -/
def renderFnNamespace (p : String × List FunctionInfo) : String :=
  "    namespace `" ++ p.1 ++ ".rs` \x7b\n"
    ++ "        class `" ++ p.1 ++ "_functions` \x7b\n"
    ++ (p.2.foldl
          (fun acc f =>
            match f.doc with
            | some d => acc ++ "            " ++ f.name ++ "() " ++ d ++ "\n"
            | none => acc ++ "            " ++ f.name ++ "()\n")
          "")
    ++ "        \x7d\n"
    ++ "    \x7d\n"

/-- The main (non-test) document of `generate_diagrams_with_config`,
lines 169-271.  `classIter` is the iteration order of
`classes.values()` — Rust's `HashMap` fixes no order, so it is an explicit
parameter here — and `funcIter` is the iteration order of the
`file_functions_main` `HashMap`.  The per-file `BTreeMap` sorts namespace
keys, and within one namespace the class blocks appear in `classIter`
order; edges are sorted (a `BTreeSet<String>`); notes follow the class
blocks' order. -/
def renderMainDoc (title layout theme elkNodePlacement : String)
    (classIter : List Class) (funcIter : List (String × List FunctionInfo)) :
    String :=
  let mains := classIter.filter (fun c => !(is_test_file c.file))
  let keys := (mains.map Class.file).foldl (fun acc k => insertSortedStr k acc) []
  let nsParts := keys.map (fun k => renderNamespace k (mains.filter (fun c => c.file == k)))
  let nsText := nsParts.foldl (fun a p => a ++ p.1) ""
  let notes := nsParts.foldl (fun a p => a ++ p.2) ([] : List String)
  let fnText := funcIter.foldl (fun a p => a ++ renderFnNamespace p) ""
  let edges :=
    mains.foldl
      (fun acc c =>
        let acc := c.relationships.foldl (fun a r => insertSortedStr (renderEdge r) a) acc
        c.trait_impls.foldl
          (fun a t => insertSortedStr ("    " ++ t ++ " <|.. " ++ c.name ++ "\n") a) acc)
      []
  let edgesText := edges.foldl (fun a e => a ++ e) ""
  let notesText := notes.foldl (fun a n => a ++ n) ""
  renderHeader title layout theme elkNodePlacement
    ++ "classDiagram\n    direction TB\n"
    ++ nsText ++ fnText ++ edgesText ++ notesText

/-- The observable effect on the output directory of lines 319-322 of
`generate_diagrams_with_config`:

    fs::create_dir_all(out_path)?;
    fs::write(out_path.join("diagram.mmd"), mermaid_main)?;
    fs::write(out_path.join("diagram_tests.mmd"), mermaid_tests)?;

Each step may fail; `?` aborts after the preceding effects have already
happened.  The three booleans say whether directory creation and each of
the two writes succeed; the result records which documents exist
afterwards and whether the function returned `Ok`. -/
structure OutputFiles where
  mainWritten : Bool
  testsWritten : Bool
deriving DecidableEq, Repr

/-- Sequential write step of `generate_diagrams_with_config`; see
`OutputFiles`. -/
def write_outputs (dirOk writeMainOk writeTestsOk : Bool) : OutputFiles × Bool :=
  if !dirOk then (⟨false, false⟩, false)
  else if !writeMainOk then (⟨false, false⟩, false)
  else if !writeTestsOk then (⟨true, false⟩, false)
  else (⟨true, true⟩, true)

/-! Concrete syntax trees:

Builders mirroring the node shapes tree-sitter-rust produces, and the
concrete corpora used below as witnesses and counterexamples. -/

/-- A `type_identifier` token (a leaf in tree-sitter-rust). -/
def tyId (s : String) : TSNode := .node "type_identifier" s []

/-- A `field_identifier` token. -/
def fieldId (s : String) : TSNode := .node "field_identifier" s []

/-- A reference type `&T` (`reference_type` with the `&` token and the
referent as children). -/
def refType (inner : TSNode) : TSNode :=
  .node "reference_type" ("&" ++ inner.text) [(none, .node "&" "&" []), (none, inner)]

/-- A generic type `C<A, ...>` (`generic_type` with the constructor token
and a `type_arguments` child). -/
def genType (ctor : String) (args : List TSNode) : TSNode :=
  .node "generic_type" (ctor ++ "<...>")
    [(none, tyId ctor), (none, .node "type_arguments" "<...>" (args.map (fun a => (none, a))))]

/-- A `field_declaration` with `name` and `type` fields. -/
def mkField (fname : String) (ftype : TSNode) : TSNode :=
  .node "field_declaration" (fname ++ ": " ++ ftype.text)
    [(some "name", fieldId fname), (some "type", ftype)]

/-- A `struct_item` with its `name` field and a `field_declaration_list`
body. -/
def mkStruct (name : String) (fs : List TSNode) : TSNode :=
  .node "struct_item" ("struct " ++ name)
    [ (none, .node "struct" "struct" []),
      (some "name", tyId name),
      (some "body", .node "field_declaration_list" "..." (fs.map (fun f => (none, f)))) ]

/-- A `struct_item` missing its `name` field (the malformed shape the
`.unwrap()` in `extract_items` panics on). -/
def mkStructNoName : TSNode :=
  .node "struct_item" "struct"
    [(none, .node "struct" "struct" []), (some "body", .node "field_declaration_list" "" [])]

/-- A `function_item` with no `name` field (skipped by the `if let`). -/
def mkFnNoName : TSNode :=
  .node "function_item" "fn ()" [(none, .node "fn" "fn" [])]

/-- A `function_item` with its `name` field. -/
def mkFn (name : String) : TSNode :=
  .node "function_item" ("fn " ++ name)
    [(none, .node "fn" "fn" []), (some "name", .node "identifier" name [])]

/-- A `line_comment` token. -/
def mkComment (text : String) : TSNode := .node "line_comment" text []

/-- An `attribute_item` token such as `#[test]`. -/
def mkAttr (text : String) : TSNode := .node "attribute_item" text []

/-- A `source_file` root node. -/
def mkRoot (items : List TSNode) : TSNode :=
  .node "source_file" "..." (items.map (fun i => (none, i)))

/-- Corpus for determinism: one file declaring two empty structs `A` and
`B`, which land in the same namespace of the main document. -/
def corpusTwoStructs : List SourceFile :=
  [⟨"m", mkRoot [mkStruct "A" [], mkStruct "B" []]⟩]

/-- The class list extracted from a corpus (empty when extraction
aborts). -/
def classListOf (files : List SourceFile) : List Class :=
  match extractProject files with
  | some st => st.classes.map Prod.snd
  | none => []

/-- The `doc` summary the pipeline records for the entity of the given
name. -/
def docOf (files : List SourceFile) (name : String) : Option (Option String) :=
  (extractProject files).bind (fun st => (lookupA st.classes name).map Class.doc)

/-- The `fields` (members) list the pipeline records for the entity of
the given name. -/
def fieldsOf (files : List SourceFile) (name : String) : Option (List String) :=
  (extractProject files).bind (fun st => (lookupA st.classes name).map Class.fields)

/-- The relationship set the pipeline records for the entity of the given
name. -/
def relsOf (files : List SourceFile) (name : String) : Option (List Relationship) :=
  (extractProject files).bind (fun st => (lookupA st.classes name).map Class.relationships)

/-- Corpus for doc-comment attachment: a struct preceded by a contiguous
block of two doc-comment lines. -/
def corpusTwoDocLines : List SourceFile :=
  [⟨"m", mkRoot [mkComment "/// first line", mkComment "/// second line", mkStruct "Foo" []]⟩]

/-- Corpus with two struct declarations sharing the name `X`, the first
with field `a`, the second with field `b`. -/
def corpusDuplicateX : List SourceFile :=
  [⟨"m", mkRoot [mkStruct "X" [mkField "a" (tyId "u32")],
                 mkStruct "X" [mkField "b" (tyId "u32")]]⟩]

/-- Corpus for edge kinds: `struct Node { parent: &Node, children:
Vec<Node> }`. -/
def corpusNode : List SourceFile :=
  [⟨"m", mkRoot [mkStruct "Node"
      [ mkField "parent" (refType (tyId "Node")),
        mkField "children" (genType "Vec" [tyId "Node"]) ]]⟩]

/-- Corpus for the nested-reference case: `Foo` is local, and `Wrapper`
owns a field of shape `Option<&Foo>`. -/
def corpusWrapper : List SourceFile :=
  [⟨"m", mkRoot [mkStruct "Foo" [],
                 mkStruct "Wrapper" [mkField "inner" (genType "Option" [refType (tyId "Foo")])]]⟩]

/-- Corpus with a malformed (nameless) struct declaration followed by a
well-formed one. -/
def corpusMalformed : List SourceFile :=
  [⟨"m", mkRoot [mkStructNoName, mkStruct "Y" []]⟩]

/-- The creation-time metadata of an entity: stereotype (category),
origin file, and doc summary agree. -/
def sameMeta (c c' : Class) : Prop :=
  c'.stereotype = c.stereotype ∧ c'.file = c.file ∧ c'.doc = c.doc

/-- Every entity bound in the first state is still bound in the second,
with unchanged creation-time metadata. -/
def MetaStep (s s' : ExtractState) : Prop :=
  ∀ k c, lookupA s.classes k = some c →
    ∃ c', lookupA s'.classes k = some c' ∧ sameMeta c c'

/-- Every relationship edge of every registered entity targets a name of
the local type universe. -/
def RelInv (local_types : List String) (s : ExtractState) : Prop :=
  ∀ p ∈ s.classes, ∀ r ∈ p.2.relationships, r.target ∈ local_types

/-- The member names a body child contributes to `fields`: the field name
of a `field_declaration` (struct case), when present. -/
def fieldNameOf (field : TSNode) : List String :=
  if field.kind == "field_declaration" then
    match field.childByFieldName "name" with
    | some nm => [nm.text]
    | none => []
  else []

/-- The member names a body child contributes to `fields` in the enum
case: the variant name of an `enum_variant`, when present. -/
def variantNameOf (variant : TSNode) : List String :=
  if variant.kind == "enum_variant" then
    match variant.childByFieldName "name" with
    | some nm => [nm.text]
    | none => []
  else []

/-- The field names a whole struct declaration appends to `members`. -/
def declaredFieldNames (child : TSNode) : List String :=
  match child.childByFieldName "body" with
  | none => []
  | some body => (body.children.map fieldNameOf).flatten

/-- A doc-comment line: a `line_comment` node whose text starts with the
`///` marker. -/
abbrev isDocLine (n : TSNode) : Prop :=
  n.kind = "line_comment" ∧ strStartsWith n.text "///" = true

/-- The summary text a doc line would contribute: marker stripped,
whitespace trimmed. -/
def docStrip (n : TSNode) : String := strTrim (strDrop n.text 3)

/-- The rest of the sibling chain stops the doc scan at once: exhausted,
or headed by a non-doc `line_comment`, or by a node of another kind whose
text does not trim to empty. -/
abbrev stopsDocScan : List TSNode → Prop
  | [] => True
  | b :: _ =>
    (b.kind = "line_comment" ∧ strStartsWith b.text "///" = false) ∨
    (b.kind ≠ "line_comment" ∧ strTrim b.text ≠ "")

/-- Nodes the test scan of `has_test_attribute` silently skips: comments,
whitespace-only nodes, and attribute nodes without a test marker. -/
abbrev scanSkip (n : TSNode) : Prop :=
  ((n.kind = "attribute_item" ∨ n.kind = "attribute") ∧ attrHasTestMarker n = false) ∨
  (¬(n.kind = "attribute_item" ∨ n.kind = "attribute") ∧
    (n.kind = "line_comment" ∨ n.kind = "block_comment" ∨ strTrim n.text = ""))

/-- An attribute node whose text contains a test marker. -/
abbrev isMarkerAttr (n : TSNode) : Prop :=
  (n.kind = "attribute_item" ∨ n.kind = "attribute") ∧ attrHasTestMarker n = true

/-- A non-empty, non-comment, non-attribute sibling, which stops the test
scan and forces the non-test classification. -/
abbrev isBlockingStmt (n : TSNode) : Prop :=
  n.kind ≠ "attribute_item" ∧ n.kind ≠ "attribute" ∧ n.kind ≠ "line_comment" ∧
  n.kind ≠ "block_comment" ∧ strTrim n.text ≠ ""

/-- A plain registered `Node` class used as a base state in witnesses. -/
def nodeBase : Class := ⟨"Node", "m", some "struct", none, [], [], [], []⟩

/-- A state that already binds `Foo` with metadata distinct from anything
`corpusTwoDocLines` would create (category `enum`, file `z`, doc `d`). -/
def c4Start : ExtractState :=
  ⟨[("Foo", ⟨"Foo", "z", some "enum", some "d", [], [], [], []⟩)], [], []⟩

/-- Extraction of `corpusTwoDocLines` (which re-declares `Foo`) on top of
`c4Start`. -/
def c4Result : ExtractState :=
  (extractFiles [] corpusTwoDocLines c4Start).getD ExtractState.empty

/-- The extraction result of `corpusNode`. -/
def c6Result : ExtractState := (extractProject corpusNode).getD ExtractState.empty

/-- The `Node` entity extracted from `corpusNode`. -/
def c6NodeClass : Class := (lookupA c6Result.classes "Node").getD Class.default


/-! Helper lemmas. -/

theorem metaStep_refl (s : ExtractState) : MetaStep s s :=
  fun _ c h => ⟨c, h, rfl, rfl, rfl⟩

theorem metaStep_trans {a b c : ExtractState} (h1 : MetaStep a b)
    (h2 : MetaStep b c) : MetaStep a c := by
  intro k cl hk
  obtain ⟨c1, hc1, m1⟩ := h1 k cl hk
  obtain ⟨c2, hc2, m2⟩ := h2 k c1 hc1
  exact ⟨c2, hc2, m2.1.trans m1.1, m2.2.1.trans m1.2.1, m2.2.2.trans m1.2.2⟩

theorem mem_insertRel {r x : Relationship} {l : List Relationship}
    (h : r ∈ insertRel x l) : r = x ∨ r ∈ l := by
  unfold insertRel at h
  split at h
  · exact Or.inr h
  · rcases List.mem_append.1 h with h | h
    · exact Or.inr h
    · simp at h; exact Or.inl h

theorem self_mem_insertRel (x : Relationship) (l : List Relationship) :
    x ∈ insertRel x l := by
  unfold insertRel
  split
  · assumption
  · simp

theorem mem_of_mem_insertRel {r x : Relationship} {l : List Relationship}
    (h : r ∈ l) : r ∈ insertRel x l := by
  unfold insertRel
  split
  · exact h
  · exact List.mem_append_left _ h

theorem edgeStep_shape (lt : List String) (ft : TSNode) (fn : Option String)
    (c : Class) (ty : String) :
    ∃ rels, edgeStep lt ft fn c ty = { c with relationships := rels } := by
  unfold edgeStep
  split
  · exact ⟨_, rfl⟩
  · exact ⟨c.relationships, rfl⟩

theorem variantEdgeStep_shape (lt : List String) (ft : TSNode)
    (vn fn : Option String) (c : Class) (ty : String) :
    ∃ rels, variantEdgeStep lt ft vn fn c ty = { c with relationships := rels } := by
  unfold variantEdgeStep
  split
  · exact ⟨_, rfl⟩
  · exact ⟨c.relationships, rfl⟩

theorem foldEdge_shape (lt : List String) (ft : TSNode) (fn : Option String) :
    ∀ (ids : List String) (c : Class),
      ∃ rels, ids.foldl (edgeStep lt ft fn) c = { c with relationships := rels }
  | [], c => ⟨c.relationships, rfl⟩
  | ty :: ids, c => by
    obtain ⟨r1, h1⟩ := edgeStep_shape lt ft fn c ty
    obtain ⟨r2, h2⟩ := foldEdge_shape lt ft fn ids (edgeStep lt ft fn c ty)
    refine ⟨r2, ?_⟩
    rw [List.foldl_cons, h2, h1]

theorem foldVariantEdge_shape (lt : List String) (ft : TSNode) (vn fn : Option String) :
    ∀ (ids : List String) (c : Class),
      ∃ rels, ids.foldl (variantEdgeStep lt ft vn fn) c = { c with relationships := rels }
  | [], c => ⟨c.relationships, rfl⟩
  | ty :: ids, c => by
    obtain ⟨r1, h1⟩ := variantEdgeStep_shape lt ft vn fn c ty
    obtain ⟨r2, h2⟩ := foldVariantEdge_shape lt ft vn fn ids (variantEdgeStep lt ft vn fn c ty)
    refine ⟨r2, ?_⟩
    rw [List.foldl_cons, h2, h1]

theorem edgeStep_rel_mem {lt : List String} {ft : TSNode} {fn : Option String}
    {c : Class} {ty : String} {r : Relationship}
    (h : r ∈ (edgeStep lt ft fn c ty).relationships) :
    r ∈ c.relationships ∨ (r.target ∈ lt ∧ r.edge_type = edgeKind ft) := by
  unfold edgeStep at h
  split at h
  · rcases mem_insertRel h with h | h
    · subst h
      right
      exact ⟨by assumption, rfl⟩
    · exact Or.inl h
  · exact Or.inl h

theorem variantEdgeStep_rel_mem {lt : List String} {ft : TSNode} {vn fn : Option String}
    {c : Class} {ty : String} {r : Relationship}
    (h : r ∈ (variantEdgeStep lt ft vn fn c ty).relationships) :
    r ∈ c.relationships ∨ (r.target ∈ lt ∧ r.edge_type = edgeKind ft) := by
  unfold variantEdgeStep at h
  split at h
  · rcases mem_insertRel h with h | h
    · subst h
      right
      exact ⟨by assumption, rfl⟩
    · exact Or.inl h
  · exact Or.inl h

theorem foldEdge_rel_mem {lt : List String} {ft : TSNode} {fn : Option String} :
    ∀ {ids : List String} {c : Class} {r : Relationship},
      r ∈ (ids.foldl (edgeStep lt ft fn) c).relationships →
      r ∈ c.relationships ∨ (r.target ∈ lt ∧ r.edge_type = edgeKind ft)
  | [], _, _, h => Or.inl h
  | ty :: ids, c, r, h => by
    rw [List.foldl_cons] at h
    rcases foldEdge_rel_mem h with h | h
    · exact edgeStep_rel_mem h
    · exact Or.inr h

theorem foldVariantEdge_rel_mem {lt : List String} {ft : TSNode} {vn fn : Option String} :
    ∀ {ids : List String} {c : Class} {r : Relationship},
      r ∈ (ids.foldl (variantEdgeStep lt ft vn fn) c).relationships →
      r ∈ c.relationships ∨ (r.target ∈ lt ∧ r.edge_type = edgeKind ft)
  | [], _, _, h => Or.inl h
  | ty :: ids, c, r, h => by
    rw [List.foldl_cons] at h
    rcases foldVariantEdge_rel_mem h with h | h
    · exact variantEdgeStep_rel_mem h
    · exact Or.inr h

theorem foldEdge_no_local {lt : List String} {ft : TSNode} {fn : Option String} :
    ∀ {ids : List String} (c : Class), (∀ ty ∈ ids, ty ∉ lt) →
      ids.foldl (edgeStep lt ft fn) c = c
  | [], _, _ => rfl
  | ty :: ids, c, h => by
    rw [List.foldl_cons]
    have hty : ty ∉ lt := h ty (List.mem_cons_self ty ids)
    have hstep : edgeStep lt ft fn c ty = c := by
      unfold edgeStep
      split
      · exact absurd (by assumption) hty
      · rfl
    rw [hstep]
    exact foldEdge_no_local c (fun t ht => h t (List.mem_cons_of_mem ty ht))


theorem processField_shape (lt : List String) (cls : Class) (field : TSNode) :
    ∃ rels, processField lt cls field =
      { cls with fields := cls.fields ++ fieldNameOf field, relationships := rels } := by
  unfold processField fieldNameOf
  split
  · cases hn : field.childByFieldName "name" with
    | none =>
      simp only [hn, Option.map_none']
      cases ht : field.childByFieldName "type" with
      | none => exact ⟨cls.relationships, by simp⟩
      | some ftype =>
        obtain ⟨rels, hr⟩ := foldEdge_shape lt ftype none (extract_type_identifiers ftype) cls
        exact ⟨rels, by simp [hr]⟩
    | some nm =>
      simp only [hn, Option.map_some']
      cases ht : field.childByFieldName "type" with
      | none => exact ⟨cls.relationships, by simp⟩
      | some ftype =>
        obtain ⟨rels, hr⟩ := foldEdge_shape lt ftype (some nm.text)
          (extract_type_identifiers ftype) { cls with fields := cls.fields ++ [nm.text] }
        exact ⟨rels, by simp [hr]⟩
  · exact ⟨cls.relationships, by simp⟩

theorem processVariantField_shape (lt : List String) (vn : Option String)
    (cls : Class) (field : TSNode) :
    ∃ rels, processVariantField lt vn cls field = { cls with relationships := rels } := by
  unfold processVariantField
  split
  · cases ht : field.childByFieldName "type" with
    | none => exact ⟨cls.relationships, by simp⟩
    | some ftype =>
      obtain ⟨rels, hr⟩ := foldVariantEdge_shape lt ftype vn
        ((field.childByFieldName "name").map TSNode.text) (extract_type_identifiers ftype) cls
      exact ⟨rels, by simp [hr]⟩
  · exact ⟨cls.relationships, by simp⟩

theorem foldVariantField_shape (lt : List String) (vn : Option String) :
    ∀ (fs : List TSNode) (cls : Class),
      ∃ rels, fs.foldl (processVariantField lt vn) cls = { cls with relationships := rels }
  | [], cls => ⟨cls.relationships, rfl⟩
  | f :: fs, cls => by
    obtain ⟨r1, h1⟩ := processVariantField_shape lt vn cls f
    obtain ⟨r2, h2⟩ := foldVariantField_shape lt vn fs (processVariantField lt vn cls f)
    refine ⟨r2, ?_⟩
    rw [List.foldl_cons, h2, h1]

theorem processVariant_shape (lt : List String) (cls : Class) (variant : TSNode) :
    ∃ rels, processVariant lt cls variant =
      { cls with fields := cls.fields ++ variantNameOf variant, relationships := rels } := by
  unfold processVariant variantNameOf
  split
  · cases hn : variant.childByFieldName "name" with
    | none =>
      simp only [hn, Option.map_none']
      cases hb : variant.childByFieldName "body" with
      | none => exact ⟨cls.relationships, by simp⟩
      | some vbody =>
        obtain ⟨rels, hr⟩ := foldVariantField_shape lt none vbody.children cls
        exact ⟨rels, by simp [hr]⟩
    | some nm =>
      simp only [hn, Option.map_some']
      cases hb : variant.childByFieldName "body" with
      | none => exact ⟨cls.relationships, by simp⟩
      | some vbody =>
        obtain ⟨rels, hr⟩ := foldVariantField_shape lt (some nm.text) vbody.children
          { cls with fields := cls.fields ++ [nm.text] }
        exact ⟨rels, by simp [hr]⟩
  · exact ⟨cls.relationships, by simp⟩

theorem foldProcessField_shape (lt : List String) :
    ∀ (fs : List TSNode) (cls : Class),
      ∃ rels, fs.foldl (processField lt) cls =
        { cls with fields := cls.fields ++ (fs.map fieldNameOf).flatten,
                   relationships := rels }
  | [], cls => ⟨cls.relationships, by simp⟩
  | f :: fs, cls => by
    obtain ⟨r1, h1⟩ := processField_shape lt cls f
    obtain ⟨r2, h2⟩ := foldProcessField_shape lt fs (processField lt cls f)
    refine ⟨r2, ?_⟩
    rw [List.foldl_cons, h2, h1]
    simp

theorem foldProcessVariant_shape (lt : List String) :
    ∀ (fs : List TSNode) (cls : Class),
      ∃ rels, fs.foldl (processVariant lt) cls =
        { cls with fields := cls.fields ++ (fs.map variantNameOf).flatten,
                   relationships := rels }
  | [], cls => ⟨cls.relationships, by simp⟩
  | f :: fs, cls => by
    obtain ⟨r1, h1⟩ := processVariant_shape lt cls f
    obtain ⟨r2, h2⟩ := foldProcessVariant_shape lt fs (processVariant lt cls f)
    refine ⟨r2, ?_⟩
    rw [List.foldl_cons, h2, h1]
    simp

theorem processField_rel_mem {lt : List String} {cls : Class} {field : TSNode}
    {r : Relationship} (h : r ∈ (processField lt cls field).relationships) :
    r ∈ cls.relationships ∨ r.target ∈ lt := by
  unfold processField at h
  split at h
  · cases hn : field.childByFieldName "name" with
    | none =>
      simp only [hn, Option.map_none'] at h
      cases ht : field.childByFieldName "type" with
      | none => rw [ht] at h; exact Or.inl h
      | some ftype =>
        rw [ht] at h
        rcases foldEdge_rel_mem h with h | h
        · exact Or.inl h
        · exact Or.inr h.1
    | some nm =>
      simp only [hn, Option.map_some'] at h
      cases ht : field.childByFieldName "type" with
      | none => rw [ht] at h; exact Or.inl h
      | some ftype =>
        rw [ht] at h
        rcases foldEdge_rel_mem h with h | h
        · exact Or.inl h
        · exact Or.inr h.1
  · exact Or.inl h

theorem processVariantField_rel_mem {lt : List String} {vn : Option String}
    {cls : Class} {field : TSNode} {r : Relationship}
    (h : r ∈ (processVariantField lt vn cls field).relationships) :
    r ∈ cls.relationships ∨ r.target ∈ lt := by
  unfold processVariantField at h
  split at h
  · cases ht : field.childByFieldName "type" with
    | none => rw [ht] at h; exact Or.inl h
    | some ftype =>
      rw [ht] at h
      rcases foldVariantEdge_rel_mem h with h | h
      · exact Or.inl h
      · exact Or.inr h.1
  · exact Or.inl h

theorem foldProcessField_rel_mem {lt : List String} :
    ∀ {fs : List TSNode} {cls : Class} {r : Relationship},
      r ∈ (fs.foldl (processField lt) cls).relationships →
      r ∈ cls.relationships ∨ r.target ∈ lt
  | [], _, _, h => Or.inl h
  | f :: fs, cls, r, h => by
    rw [List.foldl_cons] at h
    rcases foldProcessField_rel_mem h with h | h
    · exact processField_rel_mem h
    · exact Or.inr h

theorem foldVariantField_rel_mem {lt : List String} {vn : Option String} :
    ∀ {fs : List TSNode} {cls : Class} {r : Relationship},
      r ∈ (fs.foldl (processVariantField lt vn) cls).relationships →
      r ∈ cls.relationships ∨ r.target ∈ lt
  | [], _, _, h => Or.inl h
  | f :: fs, cls, r, h => by
    rw [List.foldl_cons] at h
    rcases foldVariantField_rel_mem h with h | h
    · exact processVariantField_rel_mem h
    · exact Or.inr h

theorem processVariant_rel_mem {lt : List String} {cls : Class} {variant : TSNode}
    {r : Relationship} (h : r ∈ (processVariant lt cls variant).relationships) :
    r ∈ cls.relationships ∨ r.target ∈ lt := by
  unfold processVariant at h
  split at h
  · cases hn : variant.childByFieldName "name" with
    | none =>
      simp only [hn, Option.map_none'] at h
      cases hb : variant.childByFieldName "body" with
      | none => rw [hb] at h; exact Or.inl h
      | some vbody =>
        rw [hb] at h
        rcases foldVariantField_rel_mem h with h | h
        · exact Or.inl h
        · exact Or.inr h
    | some nm =>
      simp only [hn, Option.map_some'] at h
      cases hb : variant.childByFieldName "body" with
      | none => rw [hb] at h; exact Or.inl h
      | some vbody =>
        rw [hb] at h
        rcases foldVariantField_rel_mem h with h | h
        · exact Or.inl h
        · exact Or.inr h
  · exact Or.inl h

theorem foldProcessVariant_rel_mem {lt : List String} :
    ∀ {fs : List TSNode} {cls : Class} {r : Relationship},
      r ∈ (fs.foldl (processVariant lt) cls).relationships →
      r ∈ cls.relationships ∨ r.target ∈ lt
  | [], _, _, h => Or.inl h
  | f :: fs, cls, r, h => by
    rw [List.foldl_cons] at h
    rcases foldProcessVariant_rel_mem h with h | h
    · exact processVariant_rel_mem h
    · exact Or.inr h

theorem lookupA_updateA_self : ∀ (m : List (String × Class)) (k : String) (c : Class),
    lookupA (updateA m k c) k = some c
  | [], k, c => by simp [updateA, lookupA]
  | (k0, c0) :: rest, k, c => by
    unfold updateA
    by_cases h : k0 = k
    · subst h; simp [lookupA]
    · simp only [beq_iff_eq, h, if_false, reduceIte]
      rw [lookupA]
      simp only [beq_iff_eq, h, if_false, reduceIte]
      exact lookupA_updateA_self rest k c

theorem lookupA_updateA_ne : ∀ (m : List (String × Class)) (k : String) (c : Class)
    (key : String), key ≠ k → lookupA (updateA m k c) key = lookupA m key
  | [], k, c, key, h => by simp [updateA, lookupA, Ne.symm h]
  | (k0, c0) :: rest, k, c, key, h => by
    unfold updateA
    by_cases h0 : k0 = k
    · subst h0
      simp [lookupA, Ne.symm h, h]
    · simp only [beq_iff_eq, h0, if_false, reduceIte]
      rw [lookupA, lookupA]
      by_cases h1 : k0 = key
      · simp [h1]
      · simp only [beq_iff_eq, h1, if_false, reduceIte]
        exact lookupA_updateA_ne rest k c key h

theorem mem_updateA : ∀ {m : List (String × Class)} {k : String} {c : Class}
    {p : String × Class}, p ∈ updateA m k c → p = (k, c) ∨ p ∈ m
  | [], k, c, p, h => by
    unfold updateA at h
    simp at h
    exact Or.inl h
  | (k0, c0) :: rest, k, c, p, h => by
    unfold updateA at h
    split at h
    · rcases List.mem_cons.1 h with h | h
      · exact Or.inl h
      · exact Or.inr (List.mem_cons_of_mem _ h)
    · rcases List.mem_cons.1 h with h | h
      · exact Or.inr (h ▸ List.mem_cons_self _ _)
      · rcases mem_updateA h with h | h
        · exact Or.inl h
        · exact Or.inr (List.mem_cons_of_mem _ h)

theorem lookupA_mem : ∀ {m : List (String × Class)} {k : String} {c : Class},
    lookupA m k = some c → (k, c) ∈ m
  | [], k, c, h => by simp [lookupA] at h
  | (k0, c0) :: rest, k, c, h => by
    rw [lookupA] at h
    split at h
    · cases h
      have : k0 = k := by
        rename_i hbeq
        exact beq_iff_eq.1 hbeq
      subst this
      exact List.mem_cons_self _ _
    · exact List.mem_cons_of_mem _ (lookupA_mem h)

theorem entryClass_lookup_some {st : ExtractState} {fm stereo : String}
    {doc : Option String} {name : String} {c : Class}
    (h : lookupA st.classes name = some c) :
    entryClass st fm stereo doc name = c := by
  unfold entryClass
  rw [h]

theorem entryClass_lookup_none {st : ExtractState} {fm stereo : String}
    {doc : Option String} {name : String}
    (h : lookupA st.classes name = none) :
    entryClass st fm stereo doc name =
      { Class.default with name := name, file := fm,
                           stereotype := some stereo, doc := doc } := by
  unfold entryClass
  rw [h]

theorem structBodyFold_shape (lt : List String) (child : TSNode) (cls : Class) :
    ∃ rels, structBodyFold lt child cls =
      { cls with fields := cls.fields ++ declaredFieldNames child,
                 relationships := rels } := by
  unfold structBodyFold declaredFieldNames
  cases hb : child.childByFieldName "body" with
  | none => exact ⟨cls.relationships, by simp⟩
  | some body => exact foldProcessField_shape lt body.children cls

theorem structBodyFold_meta (lt : List String) (child : TSNode) (cls : Class) :
    sameMeta cls (structBodyFold lt child cls) := by
  obtain ⟨rels, h⟩ := structBodyFold_shape lt child cls
  rw [h]
  exact ⟨rfl, rfl, rfl⟩

theorem enumBodyFold_meta (lt : List String) (child : TSNode) (cls : Class) :
    sameMeta cls (enumBodyFold lt child cls) := by
  unfold enumBodyFold
  cases hb : child.childByFieldName "body" with
  | none => exact ⟨rfl, rfl, rfl⟩
  | some body =>
    obtain ⟨rels, h⟩ := foldProcessVariant_shape lt body.children cls
    show sameMeta cls (body.children.foldl (processVariant lt) cls)
    rw [h]
    exact ⟨rfl, rfl, rfl⟩

theorem structBodyFold_rel_mem {lt : List String} {child : TSNode} {cls : Class}
    {r : Relationship} (h : r ∈ (structBodyFold lt child cls).relationships) :
    r ∈ cls.relationships ∨ r.target ∈ lt := by
  unfold structBodyFold at h
  split at h
  · exact Or.inl h
  · exact foldProcessField_rel_mem h

theorem enumBodyFold_rel_mem {lt : List String} {child : TSNode} {cls : Class}
    {r : Relationship} (h : r ∈ (enumBodyFold lt child cls).relationships) :
    r ∈ cls.relationships ∨ r.target ∈ lt := by
  unfold enumBodyFold at h
  split at h
  · exact Or.inl h
  · exact foldProcessVariant_rel_mem h

theorem processChild_metaStep {child : TSNode} {prevs : List TSNode} {fm : String}
    {lt : List String} {st st' : ExtractState}
    (h : processChild child prevs fm lt st = some st') : MetaStep st st' := by
  unfold processChild at h
  split at h
  · split at h
    · exact absurd h (by simp)
    · rename_i nameNode hname
      simp only [Option.some.injEq] at h
      subst h
      intro k c hkc
      by_cases hkey : k = nameNode.text
      · subst hkey
        refine ⟨structBodyFold lt child
          (entryClass st fm "struct" (leading_doc_comment prevs) nameNode.text),
          lookupA_updateA_self _ _ _, ?_⟩
        rw [entryClass_lookup_some hkc]
        exact structBodyFold_meta lt child c
      · exact ⟨c, by rw [lookupA_updateA_ne _ _ _ _ hkey]; exact hkc, rfl, rfl, rfl⟩
  · split at h
    · split at h
      · exact absurd h (by simp)
      · rename_i nameNode hname
        simp only [Option.some.injEq] at h
        subst h
        intro k c hkc
        by_cases hkey : k = nameNode.text
        · subst hkey
          refine ⟨enumBodyFold lt child
            (entryClass st fm "enum" (leading_doc_comment prevs) nameNode.text),
            lookupA_updateA_self _ _ _, ?_⟩
          rw [entryClass_lookup_some hkc]
          exact enumBodyFold_meta lt child c
        · exact ⟨c, by rw [lookupA_updateA_ne _ _ _ _ hkey]; exact hkc, rfl, rfl, rfl⟩
    · split at h
      · split at h
        · simp only [Option.some.injEq] at h
          subst h
          exact metaStep_refl st
        · split at h
          all_goals simp only [Option.some.injEq] at h
          all_goals subst h
          all_goals exact fun k c hkc => ⟨c, hkc, rfl, rfl, rfl⟩
      · simp only [Option.some.injEq] at h
        subst h
        exact metaStep_refl st

theorem processChild_relInv {child : TSNode} {prevs : List TSNode} {fm : String}
    {lt : List String} {st st' : ExtractState}
    (h : processChild child prevs fm lt st = some st') (hinv : RelInv lt st) :
    RelInv lt st' := by
  unfold processChild at h
  split at h
  · split at h
    · exact absurd h (by simp)
    · rename_i nameNode hname
      simp only [Option.some.injEq] at h
      subst h
      intro p hp r hr
      rcases mem_updateA hp with hp | hp
      · subst hp
        rcases structBodyFold_rel_mem hr with hr | hr
        · cases hl : lookupA st.classes nameNode.text with
          | some c0 =>
            rw [entryClass_lookup_some hl] at hr
            exact hinv (nameNode.text, c0) (lookupA_mem hl) r hr
          | none =>
            rw [entryClass_lookup_none hl] at hr
            exact absurd hr (by simp [Class.default])
        · exact hr
      · exact hinv p hp r hr
  · split at h
    · split at h
      · exact absurd h (by simp)
      · rename_i nameNode hname
        simp only [Option.some.injEq] at h
        subst h
        intro p hp r hr
        rcases mem_updateA hp with hp | hp
        · subst hp
          rcases enumBodyFold_rel_mem hr with hr | hr
          · cases hl : lookupA st.classes nameNode.text with
            | some c0 =>
              rw [entryClass_lookup_some hl] at hr
              exact hinv (nameNode.text, c0) (lookupA_mem hl) r hr
            | none =>
              rw [entryClass_lookup_none hl] at hr
              exact absurd hr (by simp [Class.default])
          · exact hr
        · exact hinv p hp r hr
    · split at h
      · split at h
        · simp only [Option.some.injEq] at h
          subst h
          exact hinv
        · split at h
          all_goals simp only [Option.some.injEq] at h
          all_goals subst h
          all_goals exact hinv
      · simp only [Option.some.injEq] at h
        subst h
        exact hinv

theorem extractChildren_metaStep :
    ∀ (cs : List (Option String × TSNode)) (prevs : List TSNode) (fm : String)
      (lt : List String) (st : ExtractState),
      ∀ st', extractChildren cs prevs fm lt st = some st' → MetaStep st st' := by
  refine extractChildren.induct
    (fun n fm lt st => ∀ st', extract_items n fm lt st = some st' → MetaStep st st')
    (fun cs prevs fm lt st =>
      ∀ st', extractChildren cs prevs fm lt st = some st' → MetaStep st st')
    ?_ ?_ ?_ ?_ ?_
  · intro fm lt st k t cs ih st' h
    simp only [extract_items] at h
    exact ih st' h
  · intro prevs fm lt st st' h
    simp only [extractChildren, Option.some.injEq] at h
    subst h
    exact metaStep_refl st
  · intro fst c rest prevs fm lt st hp st' h
    simp only [extractChildren, hp] at h
    exact absurd h (by simp)
  · intro fst c rest prevs fm lt st st2 hp hi ih st' h
    simp only [extractChildren, hp, hi] at h
    exact absurd h (by simp)
  · intro fst c rest prevs fm lt st st2 hp st3 hi ih1 ih2 st' h
    simp only [extractChildren, hp, hi] at h
    exact metaStep_trans (processChild_metaStep hp)
      (metaStep_trans (ih1 st3 hi) (ih2 st' h))

theorem extract_items_metaStep {n : TSNode} {fm : String} {lt : List String}
    {st st' : ExtractState} (h : extract_items n fm lt st = some st') :
    MetaStep st st' := by
  cases n with
  | node k t cs =>
    simp only [extract_items] at h
    exact extractChildren_metaStep cs [] fm lt st st' h

theorem extractFiles_metaStep : ∀ (files : List SourceFile) (lt : List String)
    (st st' : ExtractState), extractFiles lt files st = some st' → MetaStep st st'
  | [], lt, st, st', h => by
    simp only [extractFiles, Option.some.injEq] at h
    subst h
    exact metaStep_refl st
  | f :: files, lt, st, st', h => by
    rw [extractFiles] at h
    split at h
    · exact absurd h (by simp)
    · rename_i st1 h1
      exact metaStep_trans (extract_items_metaStep h1)
        (extractFiles_metaStep files lt st1 st' h)

theorem extractChildren_relInv :
    ∀ (cs : List (Option String × TSNode)) (prevs : List TSNode) (fm : String)
      (lt : List String) (st : ExtractState),
      ∀ st', extractChildren cs prevs fm lt st = some st' →
        RelInv lt st → RelInv lt st' := by
  refine extractChildren.induct
    (fun n fm lt st => ∀ st', extract_items n fm lt st = some st' →
      RelInv lt st → RelInv lt st')
    (fun cs prevs fm lt st => ∀ st', extractChildren cs prevs fm lt st = some st' →
      RelInv lt st → RelInv lt st')
    ?_ ?_ ?_ ?_ ?_
  · intro fm lt st k t cs ih st' h
    simp only [extract_items] at h
    exact ih st' h
  · intro prevs fm lt st st' h
    simp only [extractChildren, Option.some.injEq] at h
    subst h
    exact id
  · intro fst c rest prevs fm lt st hp st' h
    simp only [extractChildren, hp] at h
    exact absurd h (by simp)
  · intro fst c rest prevs fm lt st st2 hp hi ih st' h
    simp only [extractChildren, hp, hi] at h
    exact absurd h (by simp)
  · intro fst c rest prevs fm lt st st2 hp st3 hi ih1 ih2 st' h hinv
    simp only [extractChildren, hp, hi] at h
    exact ih2 st' h (ih1 st3 hi (processChild_relInv hp hinv))

theorem extract_items_relInv {n : TSNode} {fm : String} {lt : List String}
    {st st' : ExtractState} (h : extract_items n fm lt st = some st')
    (hinv : RelInv lt st) : RelInv lt st' := by
  cases n with
  | node k t cs =>
    simp only [extract_items] at h
    exact extractChildren_relInv cs [] fm lt st st' h hinv

theorem extractFiles_relInv : ∀ (files : List SourceFile) (lt : List String)
    (st st' : ExtractState), extractFiles lt files st = some st' →
    RelInv lt st → RelInv lt st'
  | [], lt, st, st', h => by
    simp only [extractFiles, Option.some.injEq] at h
    subst h
    exact id
  | f :: files, lt, st, st', h => by
    rw [extractFiles] at h
    split at h
    · exact absurd h (by simp)
    · rename_i st1 h1
      intro hinv
      exact extractFiles_relInv files lt st1 st' h (extract_items_relInv h1 hinv)

theorem extractProject_relInv {files : List SourceFile} {st' : ExtractState}
    (h : extractProject files = some st') : RelInv (typeUniverse files) st' := by
  unfold extractProject at h
  exact extractFiles_relInv files (typeUniverse files) ExtractState.empty st' h
    (fun p hp => by simp [ExtractState.empty] at hp)


theorem leadingLoop_stops {rest : List TSNode} (h : stopsDocScan rest) :
    ∀ acc, leadingDocCommentLoop rest acc = acc := by
  intro acc
  cases rest with
  | nil => rfl
  | cons b bs =>
    rw [leadingDocCommentLoop]
    rcases h with ⟨hk, hs⟩ | ⟨hk, ht⟩
    · simp [hk, hs]
    · simp [hk, ht]

theorem leadingLoop_docs {rest : List TSNode} (hstop : stopsDocScan rest) :
    ∀ (docs : List TSNode) (acc : Option String), (∀ n ∈ docs, isDocLine n) →
      leadingDocCommentLoop (docs ++ rest) acc =
        docs.getLast?.elim acc (fun d => some (docStrip d))
  | [], acc, _ => by simpa using leadingLoop_stops hstop acc
  | d :: ds, acc, hdocs => by
    obtain ⟨hk, hs⟩ := hdocs d (List.mem_cons_self d ds)
    rw [List.cons_append, leadingDocCommentLoop]
    simp only [hk, hs, beq_self_eq_true, if_true, reduceIte]
    rw [leadingLoop_docs hstop ds (some (strTrim (strDrop d.text 3)))
      (fun n hn => hdocs n (List.mem_cons_of_mem d hn))]
    cases ds with
    | nil => simp [docStrip]
    | cons e es =>
      cases hgl : (e :: es).getLast? with
      | none => simp at hgl
      | some x => simp [hgl]


theorem hta_skip {n : TSNode} (rest : List TSNode) (h : scanSkip n) :
    has_test_attribute (n :: rest) = has_test_attribute rest := by
  rw [has_test_attribute]
  rcases h with ⟨hk, hm⟩ | ⟨hk, hc⟩
  · have hor : (n.kind == "attribute_item" || n.kind == "attribute") = true := by
      rcases hk with hk | hk <;> simp [hk]
    rw [hor]
    simp [hm]
  · push_neg at hk
    have hor : (n.kind == "attribute_item" || n.kind == "attribute") = false := by
      simp [hk.1, hk.2]
    rw [hor]
    rcases hc with hc | hc | hc
    · simp [hc]
    · simp [hc]
    · by_cases hlc : n.kind = "line_comment" ∨ n.kind = "block_comment"
      · rcases hlc with hlc | hlc <;> simp [hlc]
      · push_neg at hlc
        simp [hlc.1, hlc.2, hc]

theorem hta_marker {m : TSNode} (rest : List TSNode) (hm : isMarkerAttr m) :
    ∀ pre : List TSNode, (∀ n ∈ pre, scanSkip n) →
      has_test_attribute (pre ++ m :: rest) = true
  | [], _ => by
    rw [List.nil_append, has_test_attribute]
    obtain ⟨hk, hmk⟩ := hm
    have hor : (m.kind == "attribute_item" || m.kind == "attribute") = true := by
      rcases hk with hk | hk <;> simp [hk]
    rw [hor]
    simp [hmk]
  | p :: pre, hpre => by
    rw [List.cons_append, hta_skip _ (hpre p (List.mem_cons_self p pre))]
    exact hta_marker rest hm pre (fun n hn => hpre n (List.mem_cons_of_mem p hn))

theorem hta_stmt {s : TSNode} (rest : List TSNode) (hs : isBlockingStmt s) :
    ∀ pre : List TSNode, (∀ n ∈ pre, scanSkip n) →
      has_test_attribute (pre ++ s :: rest) = false
  | [], _ => by
    rw [List.nil_append, has_test_attribute]
    obtain ⟨h1, h2, h3, h4, h5⟩ := hs
    simp [h1, h2, h3, h4, h5]
  | p :: pre, hpre => by
    rw [List.cons_append, hta_skip _ (hpre p (List.mem_cons_self p pre))]
    exact hta_stmt rest hs pre (fun n hn => hpre n (List.mem_cons_of_mem p hn))

theorem processChild_struct_duplicate {child : TSNode} {prevs : List TSNode}
    {fm : String} {lt : List String} {st : ExtractState} {nameNode : TSNode}
    {c0 : Class} (hk : child.kind = "struct_item")
    (hn : child.childByFieldName "name" = some nameNode)
    (hl : lookupA st.classes nameNode.text = some c0) :
    ∃ st' c1, processChild child prevs fm lt st = some st' ∧
      lookupA st'.classes nameNode.text = some c1 ∧
      c1.fields = c0.fields ++ declaredFieldNames child := by
  unfold processChild
  rw [hk]
  simp only [beq_self_eq_true, if_true, reduceIte, hn]
  refine ⟨_, _, rfl, lookupA_updateA_self _ _ _, ?_⟩
  rw [entryClass_lookup_some hl]
  obtain ⟨rels, hr⟩ := structBodyFold_shape lt child c0
  rw [hr]

theorem processField_rel_kind {lt : List String} {cls : Class} {field ftype : TSNode}
    {r : Relationship} (ht : field.childByFieldName "type" = some ftype)
    (h : r ∈ (processField lt cls field).relationships) :
    r ∈ cls.relationships ∨ (r.target ∈ lt ∧ r.edge_type = edgeKind ftype) := by
  unfold processField at h
  split at h
  · cases hn : field.childByFieldName "name" with
    | none =>
      simp only [hn, Option.map_none'] at h
      rw [ht] at h
      rcases foldEdge_rel_mem h with hh | hh
      · exact Or.inl hh
      · exact Or.inr hh
    | some nm =>
      simp only [hn, Option.map_some'] at h
      rw [ht] at h
      rcases foldEdge_rel_mem h with hh | hh
      · exact Or.inl hh
      · exact Or.inr hh
  · exact Or.inl h

theorem processChild_struct_create {child : TSNode} {prevs : List TSNode}
    {fm : String} {lt : List String} {st : ExtractState} {nameNode : TSNode}
    (hk : child.kind = "struct_item")
    (hn : child.childByFieldName "name" = some nameNode)
    (hl : lookupA st.classes nameNode.text = none) :
    ∃ st' c', processChild child prevs fm lt st = some st' ∧
      lookupA st'.classes nameNode.text = some c' ∧
      c'.stereotype = some "struct" ∧ c'.file = fm ∧
      c'.doc = leading_doc_comment prevs := by
  unfold processChild
  rw [hk]
  simp only [beq_self_eq_true, if_true, reduceIte, hn]
  obtain ⟨m1, m2, m3⟩ := structBodyFold_meta lt child
    (entryClass st fm "struct" (leading_doc_comment prevs) nameNode.text)
  refine ⟨_, _, rfl, lookupA_updateA_self _ _ _, ?_, ?_, ?_⟩
  · rw [m1, entryClass_lookup_none hl]
  · rw [m2, entryClass_lookup_none hl]
  · rw [m3, entryClass_lookup_none hl]


/-! The claims. -/

set_option maxRecDepth 10000 in
set_option maxHeartbeats 1000000 in
/-- C1: the claim says running the full pipeline twice on identical input
produces byte-identical documents, the order of class blocks within a
namespace and of per-file function namespaces being deterministic and not
hash-map-order dependent.  The code violates this: `classes` and
`file_functions_main` are Rust `HashMap`s whose per-process random
iteration order reaches the rendered text unsorted.  On a corpus with two
structs `A`, `B` in one file, two iteration orders of the same class map
(here: a list and its reverse, a permutation) render different main
documents, and likewise two iteration orders of the same function map. -/
theorem C1_pipeline_output_order_dependent :
    renderMainDoc "Project" "elk" "dark" "BRANDES_KOEPF"
        (classListOf corpusTwoStructs) []
      ≠ renderMainDoc "Project" "elk" "dark" "BRANDES_KOEPF"
        (classListOf corpusTwoStructs).reverse []
    ∧ (classListOf corpusTwoStructs).reverse.Perm (classListOf corpusTwoStructs)
    ∧ renderMainDoc "Project" "elk" "dark" "BRANDES_KOEPF" []
        [("a", [⟨"f", none⟩]), ("b", [⟨"g", none⟩])]
      ≠ renderMainDoc "Project" "elk" "dark" "BRANDES_KOEPF" []
        [("b", [⟨"g", none⟩]), ("a", [⟨"f", none⟩])] :=
  ⟨by decide, List.reverse_perm _, by decide⟩

/-- C2 counterexample: in `corpusTwoDocLines` the struct `Foo` is
preceded by the contiguous doc block `/// first line` then
`/// second line` (the line nearest the declaration).  The pipeline
records the summary "first line" — the stripped TOPMOST line — whereas
the claim demands the stripped text of the nearest line, "second
line". -/
theorem C2_counterexample :
    docOf corpusTwoDocLines "Foo" = some (some "first line") ∧
    docStrip (mkComment "/// second line") = "second line" ∧
    ("first line" : String) ≠ "second line" :=
  ⟨rfl, rfl, by decide⟩

/-- C2 (amended): for a declaration preceded by a contiguous block of
doc-comment lines, the extracted summary is the text of the FIRST
(topmost) line of the block, stripped of its marker and surrounding
whitespace — not the line nearest the declaration.  `docs` lists the
block nearest-first (the order of the preceding-sibling chain), so its
last element is the topmost source line; `rest` is anything that stops
the scan. -/
theorem C2_doc_summary_topmost (docs rest : List TSNode)
    (hdocs : ∀ n ∈ docs, isDocLine n) (hstop : stopsDocScan rest) :
    leading_doc_comment (docs ++ rest) =
      docs.getLast?.elim none (fun d => some (docStrip d)) :=
  leadingLoop_docs hstop docs none hdocs

/-- Witness for C2: a two-line doc block; the recorded summary is the
topmost line's text. -/
theorem C2_doc_summary_topmost_witness :
    leading_doc_comment [mkComment "/// second line", mkComment "/// first line"]
      = some "first line" := by
  have h := C2_doc_summary_topmost
    [mkComment "/// second line", mkComment "/// first line"] [] (by decide) trivial
  rw [List.append_nil] at h
  rw [h]
  rfl

/-- C3 counterexample: `corpusDuplicateX` declares `struct X { a }` and
then `struct X { b }`.  The resulting members list is `["a", "b"]` — the
second declaration appended its field — not `["a"]` as the claim
states. -/
theorem C3_counterexample :
    fieldsOf corpusDuplicateX "X" = some ["a", "b"] ∧
    (some ["a", "b"] : Option (List String)) ≠ some ["a"] :=
  ⟨rfl, by decide⟩

/-- C3 (amended): processing a second struct declaration whose name is
already registered APPENDS that declaration's field names to the existing
entity's members list (first-declaration fields stay in front; later
declarations extend the list). -/
theorem C3_duplicate_members_appended {child : TSNode} {prevs : List TSNode}
    {fm : String} {lt : List String} {st : ExtractState} {nameNode : TSNode}
    {c0 : Class} (hk : child.kind = "struct_item")
    (hn : child.childByFieldName "name" = some nameNode)
    (hl : lookupA st.classes nameNode.text = some c0) :
    ∃ st' c1, processChild child prevs fm lt st = some st' ∧
      lookupA st'.classes nameNode.text = some c1 ∧
      c1.fields = c0.fields ++ declaredFieldNames child :=
  processChild_struct_duplicate hk hn hl

/-- Witness for C3: re-processing `struct X { b }` over a state where `X`
already has members `["a"]` appends, giving `["a"] ++ ["b"]`. -/
theorem C3_duplicate_members_appended_witness :
    ∃ st' c1, processChild (mkStruct "X" [mkField "b" (tyId "u32")]) [] "m" []
        ⟨[("X", ⟨"X", "m", some "struct", none, ["a"], [], [], []⟩)], [], []⟩ = some st' ∧
      lookupA st'.classes "X" = some c1 ∧
      c1.fields = ["a"] ++ declaredFieldNames (mkStruct "X" [mkField "b" (tyId "u32")]) :=
  @C3_duplicate_members_appended (mkStruct "X" [mkField "b" (tyId "u32")]) [] "m" []
    ⟨[("X", ⟨"X", "m", some "struct", none, ["a"], [], [], []⟩)], [], []⟩ (tyId "X")
    ⟨"X", "m", some "struct", none, ["a"], [], [], []⟩ rfl rfl rfl

/-- C4: an entity's category (stereotype), origin file and doc summary
are captured at the first encounter of its name and never overwritten by
later declarations of the same name: (1) over any further extraction of
any file list, an already-bound name keeps its stereotype, file and doc;
(2) at creation, a struct declaration records stereotype `struct`, the
current file module, and the doc comment scanned from its preceding
siblings. -/
theorem C4_first_wins :
    (∀ (lt : List String) (files : List SourceFile) (st st' : ExtractState)
       (k : String) (c : Class),
       extractFiles lt files st = some st' → lookupA st.classes k = some c →
       ∃ c', lookupA st'.classes k = some c' ∧ c'.stereotype = c.stereotype ∧
         c'.file = c.file ∧ c'.doc = c.doc)
    ∧ (∀ (child : TSNode) (prevs : List TSNode) (fm : String) (lt : List String)
         (st : ExtractState) (nameNode : TSNode),
         child.kind = "struct_item" →
         child.childByFieldName "name" = some nameNode →
         lookupA st.classes nameNode.text = none →
         ∃ st' c', processChild child prevs fm lt st = some st' ∧
           lookupA st'.classes nameNode.text = some c' ∧
           c'.stereotype = some "struct" ∧ c'.file = fm ∧
           c'.doc = leading_doc_comment prevs) := by
  constructor
  · intro lt files st st' k c h hk
    exact extractFiles_metaStep files lt st st' h k c hk
  · intro child prevs fm lt st nameNode hk hn hl
    exact processChild_struct_create hk hn hl

/-- Witness for C4: extracting `corpusTwoDocLines` (which declares a
struct `Foo`) over a state already binding `Foo` as an enum from file `z`
with doc `d` leaves all three fields untouched; and creating a fresh
struct `Q` under a doc comment records `struct`/file/doc. -/
theorem C4_first_wins_witness :
    (∃ c', lookupA c4Result.classes "Foo" = some c' ∧
      c'.stereotype = some "enum" ∧ c'.file = "z" ∧ c'.doc = some "d")
    ∧ (∃ st' c', processChild (mkStruct "Q" []) [mkComment "/// q doc"] "m" []
        ExtractState.empty = some st' ∧
      lookupA st'.classes "Q" = some c' ∧
      c'.stereotype = some "struct" ∧ c'.file = "m" ∧
      c'.doc = leading_doc_comment [mkComment "/// q doc"]) :=
  ⟨C4_first_wins.1 [] corpusTwoDocLines c4Start c4Result "Foo"
      ⟨"Foo", "z", some "enum", some "d", [], [], [], []⟩ rfl rfl,
   C4_first_wins.2 (mkStruct "Q" []) [mkComment "/// q doc"] "m" []
      ExtractState.empty (tyId "Q") rfl rfl rfl⟩

/-- C5: a struct field's new relationship edges carry kind `o--`
(aggregation) exactly when the field's type node itself is
reference-shaped, `*--` (composition) otherwise; and in
`struct Node { parent: &Node, children: Vec<Node> }` both the aggregation
edge (from `parent`) and the composition edge (from `children`) are
present simultaneously, kind being part of edge identity. -/
theorem C5_edge_kinds :
    (∀ (lt : List String) (cls : Class) (field ftype : TSNode) (r : Relationship),
       field.childByFieldName "type" = some ftype →
       r ∈ (processField lt cls field).relationships → r ∉ cls.relationships →
       r.edge_type = if ftype.kind == "reference_type" then "o--" else "*--")
    ∧ relsOf corpusNode "Node" =
        some [⟨"Node", "Node", "o--", some "Node parent"⟩,
              ⟨"Node", "Node", "*--", some "Node children"⟩] := by
  constructor
  · intro lt cls field ftype r ht hr hnot
    rcases processField_rel_kind ht hr with h | h
    · exact absurd h hnot
    · exact h.2
  · rfl

/-- Witness for C5: the `parent: &Node` field yields the aggregation
kind. -/
theorem C5_edge_kinds_witness :
    (⟨"Node", "Node", "o--", some "Node parent"⟩ : Relationship).edge_type =
      (if (refType (tyId "Node")).kind == "reference_type" then "o--" else "*--") :=
  C5_edge_kinds.1 ["Node"] nodeBase (mkField "parent" (refType (tyId "Node")))
    (refType (tyId "Node")) ⟨"Node", "Node", "o--", some "Node parent"⟩
    rfl (by decide) (by decide)

/-- C6: every relationship edge of every extracted entity targets a name
of the Type Universe of the corpus; and a field none of whose
type-identifier tokens is in the universe inserts no edge at all. -/
theorem C6_targets_in_universe :
    (∀ (files : List SourceFile) (st' : ExtractState),
       extractProject files = some st' →
       ∀ p ∈ st'.classes, ∀ r ∈ p.2.relationships, r.target ∈ typeUniverse files)
    ∧ (∀ (lt : List String) (cls : Class) (field ftype : TSNode),
       field.childByFieldName "type" = some ftype →
       (∀ ty ∈ extract_type_identifiers ftype, ty ∉ lt) →
       (processField lt cls field).relationships = cls.relationships) := by
  constructor
  · intro files st' h p hp r hr
    exact extractProject_relInv h p hp r hr
  · intro lt cls field ftype ht hforeign
    unfold processField
    split
    · cases hn : field.childByFieldName "name" with
      | none =>
        simp only [hn, Option.map_none', ht]
        rw [foldEdge_no_local _ hforeign]
      | some nm =>
        simp only [hn, Option.map_some', ht]
        rw [foldEdge_no_local _ hforeign]
    · rfl

/-- Witness for C6: the aggregation edge of `corpusNode` targets `Node`,
a universe member; and a field of type `Vec<Foreign>` with only `Node` in
the universe inserts no edge. -/
theorem C6_targets_in_universe_witness :
    ("Node" : String) ∈ typeUniverse corpusNode ∧
    (processField ["Node"] nodeBase
      (mkField "inner" (genType "Vec" [tyId "Foreign"]))).relationships =
      nodeBase.relationships :=
  ⟨C6_targets_in_universe.1 corpusNode c6Result rfl ("Node", c6NodeClass)
      (by decide) ⟨"Node", "Node", "o--", some "Node parent"⟩ (by decide),
   C6_targets_in_universe.2 ["Node"] nodeBase
      (mkField "inner" (genType "Vec" [tyId "Foreign"]))
      (genType "Vec" [tyId "Foreign"]) rfl (by decide)⟩

/-- C7: test classification of a free function scans its preceding
siblings backwards, skipping comments, whitespace-only nodes and
non-marker attributes: a marker attribute among those nearest siblings
classifies the function as test; a non-empty non-comment non-attribute
sibling reached first classifies it as non-test; no preceding sibling
classifies as non-test. -/
theorem C7_test_classification :
    (∀ (pre rest : List TSNode) (m : TSNode), (∀ n ∈ pre, scanSkip n) →
       isMarkerAttr m → has_test_attribute (pre ++ m :: rest) = true)
    ∧ (∀ (pre rest : List TSNode) (s : TSNode), (∀ n ∈ pre, scanSkip n) →
       isBlockingStmt s → has_test_attribute (pre ++ s :: rest) = false)
    ∧ has_test_attribute [] = false :=
  ⟨fun pre rest _ hpre hm => hta_marker rest hm pre hpre,
   fun pre rest _ hpre hs => hta_stmt rest hs pre hpre,
   rfl⟩

/-- Witness for C7: `#[test]` behind a comment classifies as test; an
intervening function item blocks a farther `#[test]`. -/
theorem C7_test_classification_witness :
    has_test_attribute [mkComment "// note", mkAttr "#[test]"] = true ∧
    has_test_attribute [mkFn "g", mkAttr "#[test]"] = false ∧
    has_test_attribute [] = false :=
  ⟨C7_test_classification.1 [mkComment "// note"] [] (mkAttr "#[test]")
      (by decide) (by decide),
   C7_test_classification.2.1 [] [mkAttr "#[test]"] (mkFn "g")
      (by decide) (by decide),
   C7_test_classification.2.2⟩

/-- C8 counterexample: `corpusMalformed` contains a nameless
`struct_item` followed by a well-formed `struct Y`.  The claim says the
malformed declaration is skipped and extraction continues without
aborting; instead the run aborts (the `.unwrap()` on the missing `name`
field panics), so the whole extraction yields no result at all. -/
theorem C8_counterexample : extractProject corpusMalformed = none := rfl

/-- C8 (amended): only a `function_item` lacking its `name` field is
skipped (the state is returned unchanged and extraction continues); a
`struct_item` or `enum_item` lacking its `name` field aborts the whole
run (the code unwraps the missing field and panics). -/
theorem C8_missing_name :
    (∀ (child : TSNode) (prevs : List TSNode) (fm : String) (lt : List String)
       (st : ExtractState), child.kind = "function_item" →
       child.childByFieldName "name" = none →
       processChild child prevs fm lt st = some st)
    ∧ (∀ (child : TSNode) (prevs : List TSNode) (fm : String) (lt : List String)
       (st : ExtractState), child.kind = "struct_item" →
       child.childByFieldName "name" = none →
       processChild child prevs fm lt st = none)
    ∧ (∀ (child : TSNode) (prevs : List TSNode) (fm : String) (lt : List String)
       (st : ExtractState), child.kind = "enum_item" →
       child.childByFieldName "name" = none →
       processChild child prevs fm lt st = none) := by
  refine ⟨?_, ?_, ?_⟩
  all_goals intro child prevs fm lt st hk hn
  all_goals unfold processChild
  all_goals rw [hk]
  all_goals simp [hn]

/-- Witness for C8: a nameless function is skipped with the state
unchanged; a nameless struct or enum aborts. -/
theorem C8_missing_name_witness :
    processChild mkFnNoName [] "m" [] ExtractState.empty = some ExtractState.empty ∧
    processChild mkStructNoName [] "m" [] ExtractState.empty = none ∧
    processChild (.node "enum_item" "enum" []) [] "m" [] ExtractState.empty = none :=
  ⟨C8_missing_name.1 mkFnNoName [] "m" [] ExtractState.empty rfl rfl,
   C8_missing_name.2.1 mkStructNoName [] "m" [] ExtractState.empty rfl rfl,
   C8_missing_name.2.2 (.node "enum_item" "enum" []) [] "m" [] ExtractState.empty rfl rfl⟩

/-- C9 counterexample: the claim says either both output documents are
written or neither.  The code writes them sequentially
(`fs::write(diagram.mmd)?` then `fs::write(diagram_tests.mmd)?`): when
directory creation and the first write succeed but the second write
fails, the run errors with the main diagram written and the test diagram
missing — a partial state with exactly one document. -/
theorem C9_counterexample :
    (write_outputs true true false).1.mainWritten = true ∧
    (write_outputs true true false).1.testsWritten = false ∧
    (write_outputs true true false).2 = false :=
  ⟨rfl, rfl, rfl⟩

/-- C9 (amended): on success both documents are written; if directory
creation or the first write fails, neither document is written; but a
failure of the second write leaves the first document already written —
the write step is sequential, not atomic. -/
theorem C9_write_partial :
    (∀ d m t : Bool, (write_outputs d m t).2 = true →
       (write_outputs d m t).1 = ⟨true, true⟩)
    ∧ (∀ t : Bool, (write_outputs false t true).1 = ⟨false, false⟩)
    ∧ (∀ t : Bool, (write_outputs true false t).1 = ⟨false, false⟩)
    ∧ (write_outputs true true false).1 = ⟨true, false⟩ := by
  refine ⟨?_, ?_, ?_, rfl⟩
  · intro d m t h
    cases d <;> cases m <;> cases t <;> simp_all [write_outputs]
  · intro t; cases t <;> rfl
  · intro t; cases t <;> rfl

/-- Witness for C9: a fully successful run writes both documents. -/
theorem C9_write_partial_witness :
    (write_outputs true true true).1 = ⟨true, true⟩ :=
  C9_write_partial.1 true true true rfl

set_option maxHeartbeats 1000000 in
/-- C10 (implicit): the aggregation/composition decision looks only at
the OUTERMOST node of the field's declared type: any new edge from a
field whose top-level type node is not a `reference_type` has composition
kind, even when a reference is nested inside (e.g. `Option<&Foo>`); in
`corpusWrapper`, the field `inner: Option<&Foo>` with `Foo` local
produces exactly one composition edge and no aggregation edge. -/
theorem C10_outer_kind_only :
    (∀ (lt : List String) (cls : Class) (field ftype : TSNode) (r : Relationship),
       field.childByFieldName "type" = some ftype →
       ftype.kind ≠ "reference_type" →
       r ∈ (processField lt cls field).relationships → r ∉ cls.relationships →
       r.edge_type = "*--")
    ∧ relsOf corpusWrapper "Wrapper" =
        some [⟨"Wrapper", "Foo", "*--", some "Foo inner"⟩] := by
  constructor
  · intro lt cls field ftype r ht hk hr hnot
    rcases processField_rel_kind ht hr with h | h
    · exact absurd h hnot
    · rw [h.2]
      unfold edgeKind
      simp [hk]
  · rfl

/-- Witness for C10: the `inner: Option<&Foo>` field's edge is
composition despite the nested reference. -/
theorem C10_outer_kind_only_witness :
    (⟨"Wrapper", "Foo", "*--", some "Foo inner"⟩ : Relationship).edge_type = "*--" :=
  C10_outer_kind_only.1 ["Foo"] ⟨"Wrapper", "m", some "struct", none, [], [], [], []⟩
    (mkField "inner" (genType "Option" [refType (tyId "Foo")]))
    (genType "Option" [refType (tyId "Foo")])
    ⟨"Wrapper", "Foo", "*--", some "Foo inner"⟩
    rfl (by decide) (by decide) (by decide)
